import Mathlib

/-!
Shallow embedding of the tile-data decompressors of the alien_soldier_src
repository: `unpack` in src/unpacker.py and `unpack_tiles` in
src/scripts/split.py.  Bytes are modelled as `Nat` (the ROM buffers are
Python array objects of unsigned bytes); Python list indexing, including its
negative-index wraparound, is modelled by `pyGet`; an IndexError aborts the
decode of the block with `DErr.indexError`.  The two source functions share
one loop skeleton (`runWith`) and differ only in the arithmetic that turns a
back-reference opcode byte `b` and its operand byte `s` into a distance
(`distUnpacker` versus `distSplit`).  The loop in the source is a `while`
loop whose cursor strictly increases; here it takes a fuel argument that the
top-level entry points set to `size + 1`, which is proved sufficient
(`runWith_no_fuelOut`), so `DErr.fuelOut` is unreachable from the entry
points.
-/

/-- Decode failure: `indexError` models a Python IndexError raised while
reading the input slice or the output window; `fuelOut` is the artificial
fuel-exhaustion case of the embedding, proved unreachable. -/
inductive DErr where
  | indexError
  | fuelOut
deriving DecidableEq, Repr

/-- Python sequence indexing `res[i]` for a list and an `int` index:
a nonnegative index must be below the length, a negative index `i` addresses
`len + i` provided that is nonnegative; anything else raises IndexError
(`none`). -/
def pyGet (res : List Nat) (i : Int) : Option Nat :=
  if 0 ≤ i then res.get? i.toNat
  else if -i ≤ (res.length : Int) then res.get? (res.length - (-i).toNat)
  else none

/-- The back-reference copy loop shared by both sources:
`for _ in range(n): s = res[idx_window]; idx_window += 1; res.append(s)`.
The window pointer `w` may start negative (Python then wraps). -/
def copyLoop (res : List Nat) (w : Int) : Nat → Option (List Nat)
  | 0 => some res
  | Nat.succ n =>
    match pyGet res w with
    | none => none
    | some s => copyLoop (res ++ [s]) (w + 1) n

/-- The alternating-pair loop of the `0x20`-and-`0x40` branch:
`for _ in range(n): res.append(z); idx += 1; s = arr[idx]; res.append(s)`.
Returns the grown output and the final cursor. -/
def pairLoop (arr : List Nat) (z : Nat) : List Nat → Nat → Nat → Option (List Nat × Nat)
  | res, idx, 0 => some (res, idx)
  | res, idx, Nat.succ n =>
    match arr.get? (idx + 1) with
    | none => none
    | some s => pairLoop arr z (res ++ [z, s]) (idx + 1) n

/-- The literal loop of the all-bits-clear branch:
`for _ in range(n): idx += 1; s = arr[idx]; res.append(s)`. -/
def litLoop (arr : List Nat) : List Nat → Nat → Nat → Option (List Nat × Nat)
  | res, idx, 0 => some (res, idx)
  | res, idx, Nat.succ n =>
    match arr.get? (idx + 1) with
    | none => none
    | some s => litLoop arr (res ++ [s]) (idx + 1) n

/-- `for _ in range(n): res.append(s)` of the single-byte-run branch. -/
def repOne (res : List Nat) (s : Nat) : Nat → List Nat
  | 0 => res
  | Nat.succ n => repOne (res ++ [s]) s n

/-- `for _ in range(n): res.append(s1); res.append(s2)` of the two-byte
pattern branch. -/
def repPair (res : List Nat) (s1 s2 : Nat) : Nat → List Nat
  | 0 => res
  | Nat.succ n => repPair (res ++ [s1, s2]) s1 s2 n

/-- Back-reference distance of src/unpacker.py line 39-41:
`tmp = byte_read + s; tmp = (tmp << 8) & 0xFFFF; tmp = (tmp & 0x3FF) + 1`. -/
def distUnpacker (b s : Nat) : Nat :=
  ((((b + s) <<< 8) &&& 0xFFFF) &&& 0x3FF) + 1

/-- Back-reference distance of src/scripts/split.py line 21-27:
`tmp = byte_read; tmp = (tmp << 8) & 0xFFFF; tmp += s; tmp = (tmp & 0x3FF) + 1`. -/
def distSplit (b s : Nat) : Nat :=
  ((((b <<< 8) &&& 0xFFFF) + s) &&& 0x3FF) + 1

/-- One opcode dispatch: given the opcode byte `b` already read at cursor
`idx`, perform the selected branch body exactly as both sources write it
(they differ only through the `dist` parameter), returning the cursor after
operand consumption, the grown output and the updated `idx_res`; `none` is a
raised IndexError. -/
def branch (dist : Nat → Nat → Nat) (arr : List Nat) (b idx : Nat)
    (res : List Nat) (idxRes : Nat) : Option (Nat × List Nat × Nat) :=
  if 0x80 ≤ b then
    let cnt := ((b >>> 2) &&& 0x1F) + 1
    match arr.get? (idx + 1) with
    | none => none
    | some s =>
      let tmp := dist b s
      match copyLoop res ((idxRes : Int) - (tmp : Int)) (cnt + 1) with
      | none => none
      | some res2 => some (idx + 1, res2, idxRes + (cnt + 1))
  else if b &&& (1 <<< 5) ≠ 0 then
    if b &&& (1 <<< 6) ≠ 0 then
      let cnt := (b &&& 0x1F) + 1
      match arr.get? (idx + 1) with
      | none => none
      | some z =>
        match pairLoop arr z res (idx + 1) (cnt + 1) with
        | none => none
        | some (res2, idx2) => some (idx2, res2, idxRes + 2 * (cnt + 1))
    else
      let cnt := (b &&& 0x1F) + 1
      match arr.get? (idx + 1) with
      | none => none
      | some s => some (idx + 1, repOne res s (cnt + 1), idxRes + (cnt + 1))
  else
    if b &&& (1 <<< 6) ≠ 0 then
      let cnt := (b &&& 0x1F) + 1
      match arr.get? (idx + 1), arr.get? (idx + 2) with
      | some s1, some s2 =>
          some (idx + 2, repPair res s1 s2 (cnt + 1), idxRes + 2 * (cnt + 1))
      | _, _ => none
    else
      let cnt := b &&& 0x1F
      match litLoop arr res idx (cnt + 1) with
      | none => none
      | some (res2, idx2) => some (idx2, res2, idxRes + (cnt + 1))

/-- Observable outcome of decoding one block: the decoded bytes or the
error, the final `idx_res` counter, the number of opcode-dispatch
iterations that began, and the list of opcode bytes dispatched. -/
structure RunOut where
  result : Except DErr (List Nat)
  finIdxRes : Nat
  iters : Nat
  ops : List Nat
deriving Repr

/-- The decode loop `while idx <= size and idx <= len(arr)` common to both
sources, with the distance arithmetic abstracted into `dist`.  Structural
fuel replaces the well-founded cursor measure; the entry points pass
`size + 1`, proved ample. -/
def runWith (dist : Nat → Nat → Nat) (arr : List Nat) (size : Nat) :
    Nat → Nat → List Nat → Nat → Nat → List Nat → RunOut
  | 0, _, _, idxRes, iters, tr => ⟨Except.error DErr.fuelOut, idxRes, iters, tr⟩
  | Nat.succ fuel, idx, res, idxRes, iters, tr =>
    if idx ≤ size ∧ idx ≤ arr.length then
      match arr.get? idx with
      | none => ⟨Except.error DErr.indexError, idxRes, iters + 1, tr⟩
      | some b =>
        match branch dist arr b idx res idxRes with
        | none => ⟨Except.error DErr.indexError, idxRes, iters + 1, tr ++ [b]⟩
        | some (idx2, res2, idxRes2) =>
            runWith dist arr size fuel (idx2 + 1) res2 idxRes2 (iters + 1) (tr ++ [b])
    else ⟨Except.ok res, idxRes, iters, tr⟩

/-- The two-byte big-endian declared size `arr[0] * 0x100 + arr[1]` read at
the head of the block slice `data[addr:]`; `none` is the IndexError raised
when the slice is shorter than two bytes. -/
def headerSize (data : List Nat) (addr : Nat) : Option Nat :=
  match (data.drop addr).get? 0, (data.drop addr).get? 1 with
  | some a0, some a1 => some (a0 * 0x100 + a1)
  | _, _ => none

/-- `unpack(data, addr)` of src/unpacker.py: decode the block at `addr`. -/
def unpack (data : List Nat) (addr : Nat) : RunOut :=
  match headerSize data addr with
  | none => ⟨Except.error DErr.indexError, 0, 0, []⟩
  | some size => runWith distUnpacker (data.drop addr) size (size + 1) 2 [] 0 0 []

/-- `unpack_tiles(data, addr, ...)` of src/scripts/split.py: identical to
`unpack` except for the back-reference distance arithmetic. -/
def unpackTiles (data : List Nat) (addr : Nat) : RunOut :=
  match headerSize data addr with
  | none => ⟨Except.error DErr.indexError, 0, 0, []⟩
  | some size => runWith distSplit (data.drop addr) size (size + 1) 2 [] 0 0 []

/-- The byte sequence appended by a self-overlapping window copy: starting
on the rotation `a :: l` of the window contents, each step emits the head
and rotates it to the back (the emitted byte is exactly the byte the copy
loop just appended and will read again one period later). -/
def rotStream (a : Nat) (l : List Nat) : Nat → List Nat
  | 0 => []
  | Nat.succ n =>
    a :: (match l with
          | [] => rotStream a [] n
          | b :: t => rotStream b (t ++ [a]) n)

instance : DecidableEq (Except DErr (List Nat)) := fun a b =>
  match a, b with
  | Except.ok x, Except.ok y => decidable_of_iff (x = y) (by simp)
  | Except.error x, Except.error y => decidable_of_iff (x = y) (by simp)
  | Except.ok _, Except.error _ => isFalse (by simp)
  | Except.error _, Except.ok _ => isFalse (by simp)

/- ### Helper lemmas -/

theorem pyGet_app (p l : List Nat) (k : Nat) :
    pyGet (p ++ l) ((p.length + k : Nat) : Int) = l.get? k := by
  unfold pyGet
  rw [if_pos (by positivity)]
  have h1 : ((p.length + k : Nat) : Int).toNat = p.length + k := Int.toNat_ofNat _
  rw [h1]
  simp [List.get?_eq_getElem?, List.getElem?_append_right (Nat.le_add_right p.length k)]

theorem copyLoop_length : ∀ (n : Nat) (res res2 : List Nat) (w : Int),
    copyLoop res w n = some res2 → res2.length = res.length + n := by
  intro n
  induction n with
  | zero =>
    intro res res2 w h
    simp [copyLoop] at h
    simp [h]
  | succ n ih =>
    intro res res2 w h
    rw [copyLoop] at h
    cases hg : pyGet res w with
    | none => rw [hg] at h; cases h
    | some s =>
      rw [hg] at h
      have := ih (res ++ [s]) res2 (w + 1) h
      simp at this
      omega

theorem pairLoop_bounds : ∀ (n : Nat) (arr : List Nat) (z : Nat)
    (res res2 : List Nat) (idx idx2 : Nat),
    pairLoop arr z res idx n = some (res2, idx2) →
    res2.length = res.length + 2 * n ∧ idx + n ≤ idx2 := by
  intro n
  induction n with
  | zero =>
    intro arr z res res2 idx idx2 h
    simp [pairLoop] at h
    simp [h.1, h.2]
  | succ n ih =>
    intro arr z res res2 idx idx2 h
    rw [pairLoop] at h
    cases hg : arr.get? (idx + 1) with
    | none => rw [hg] at h; cases h
    | some s =>
      rw [hg] at h
      have := ih arr z (res ++ [z, s]) res2 (idx + 1) idx2 h
      simp at this
      omega

theorem litLoop_bounds : ∀ (n : Nat) (arr : List Nat)
    (res res2 : List Nat) (idx idx2 : Nat),
    litLoop arr res idx n = some (res2, idx2) →
    res2.length = res.length + n ∧ idx + n ≤ idx2 := by
  intro n
  induction n with
  | zero =>
    intro arr res res2 idx idx2 h
    simp [litLoop] at h
    simp [h.1, h.2]
  | succ n ih =>
    intro arr res res2 idx idx2 h
    rw [litLoop] at h
    cases hg : arr.get? (idx + 1) with
    | none => rw [hg] at h; cases h
    | some s =>
      rw [hg] at h
      have := ih arr (res ++ [s]) res2 (idx + 1) idx2 h
      simp at this
      omega

theorem repOne_length : ∀ (n : Nat) (res : List Nat) (s : Nat),
    (repOne res s n).length = res.length + n := by
  intro n
  induction n with
  | zero => intro res s; simp [repOne]
  | succ n ih =>
    intro res s
    rw [repOne, ih]
    simp
    omega

theorem repPair_length : ∀ (n : Nat) (res : List Nat) (s1 s2 : Nat),
    (repPair res s1 s2 n).length = res.length + 2 * n := by
  intro n
  induction n with
  | zero => intro res s1 s2; simp [repPair]
  | succ n ih =>
    intro res s1 s2
    rw [repPair, ih]
    simp
    omega

theorem branch_cursor_advance (dist : Nat → Nat → Nat) (arr : List Nat)
    (b idx : Nat) (res : List Nat) (idxRes : Nat)
    (idx2 : Nat) (res2 : List Nat) (idxRes2 : Nat)
    (h : branch dist arr b idx res idxRes = some (idx2, res2, idxRes2)) :
    idx + 1 ≤ idx2 := by
  unfold branch at h
  split at h
  · cases hg : arr.get? (idx + 1) with
    | none => rw [hg] at h; cases h
    | some s =>
      rw [hg] at h
      dsimp only at h
      cases hc : copyLoop res ((idxRes : Int) - ((dist b s : Nat) : Int)) ((b >>> 2 &&& 31) + 1 + 1) with
      | none => rw [hc] at h; cases h
      | some r2 => rw [hc] at h; cases h; omega
  · split at h
    · split at h
      · cases hg : arr.get? (idx + 1) with
        | none => rw [hg] at h; cases h
        | some z =>
          rw [hg] at h
          dsimp only at h
          cases hp : pairLoop arr z res (idx + 1) ((b &&& 31) + 1 + 1) with
          | none => rw [hp] at h; cases h
          | some pr =>
            rw [hp] at h
            cases pr with
            | mk r2 i2 =>
              cases h
              have := (pairLoop_bounds _ arr z res _ (idx + 1) _ hp).2
              omega
      · cases hg : arr.get? (idx + 1) with
        | none => rw [hg] at h; cases h
        | some s => rw [hg] at h; dsimp only at h; cases h; omega
    · split at h
      · cases hg1 : arr.get? (idx + 1) with
        | none => rw [hg1] at h; cases h
        | some s1 =>
          cases hg2 : arr.get? (idx + 2) with
          | none => rw [hg1, hg2] at h; cases h
          | some s2 => rw [hg1, hg2] at h; dsimp only at h; cases h; omega
      · dsimp only at h
        cases hl : litLoop arr res idx ((b &&& 31) + 1) with
        | none => rw [hl] at h; cases h
        | some pr =>
          rw [hl] at h
          cases pr with
          | mk r2 i2 =>
            cases h
            have := (litLoop_bounds _ arr res _ idx _ hl).2
            omega

theorem branch_preserves_len (dist : Nat → Nat → Nat) (arr : List Nat)
    (b idx : Nat) (res : List Nat) (idxRes : Nat)
    (idx2 : Nat) (res2 : List Nat) (idxRes2 : Nat)
    (hinv : idxRes = res.length)
    (h : branch dist arr b idx res idxRes = some (idx2, res2, idxRes2)) :
    idxRes2 = res2.length := by
  unfold branch at h
  split at h
  · cases hg : arr.get? (idx + 1) with
    | none => rw [hg] at h; cases h
    | some s =>
      rw [hg] at h
      dsimp only at h
      cases hc : copyLoop res ((idxRes : Int) - ((dist b s : Nat) : Int)) ((b >>> 2 &&& 31) + 1 + 1) with
      | none => rw [hc] at h; cases h
      | some r2 =>
        rw [hc] at h
        cases h
        have := copyLoop_length _ res _ _ hc
        omega
  · split at h
    · split at h
      · cases hg : arr.get? (idx + 1) with
        | none => rw [hg] at h; cases h
        | some z =>
          rw [hg] at h
          dsimp only at h
          cases hp : pairLoop arr z res (idx + 1) ((b &&& 31) + 1 + 1) with
          | none => rw [hp] at h; cases h
          | some pr =>
            rw [hp] at h
            cases pr with
            | mk r2 i2 =>
              cases h
              have := (pairLoop_bounds _ arr z res _ (idx + 1) _ hp).1
              omega
      · cases hg : arr.get? (idx + 1) with
        | none => rw [hg] at h; cases h
        | some s =>
          rw [hg] at h
          dsimp only at h
          cases h
          have := repOne_length ((b &&& 31) + 1 + 1) res s
          omega
    · split at h
      · cases hg1 : arr.get? (idx + 1) with
        | none => rw [hg1] at h; cases h
        | some s1 =>
          cases hg2 : arr.get? (idx + 2) with
          | none => rw [hg1, hg2] at h; cases h
          | some s2 =>
            rw [hg1, hg2] at h
            dsimp only at h
            cases h
            have := repPair_length ((b &&& 31) + 1 + 1) res s1 s2
            omega
      · dsimp only at h
        cases hl : litLoop arr res idx ((b &&& 31) + 1) with
        | none => rw [hl] at h; cases h
        | some pr =>
          rw [hl] at h
          cases pr with
          | mk r2 i2 =>
            cases h
            have := (litLoop_bounds _ arr res _ idx _ hl).1
            omega

theorem runWith_iters_le (dist : Nat → Nat → Nat) (arr : List Nat) (size : Nat) :
    ∀ (fuel idx : Nat) (res : List Nat) (idxRes iters : Nat) (tr : List Nat),
    (runWith dist arr size fuel idx res idxRes iters tr).iters ≤ iters + (size + 1 - idx) := by
  intro fuel
  induction fuel with
  | zero => intro idx res idxRes iters tr; simp [runWith]
  | succ fuel ih =>
    intro idx res idxRes iters tr
    rw [runWith]
    by_cases hg : idx ≤ size ∧ idx ≤ arr.length
    · obtain ⟨hg1, hg2⟩ := hg
      rw [if_pos ⟨hg1, hg2⟩]
      cases hb : arr.get? idx with
      | none => dsimp only; omega
      | some b =>
        dsimp only
        cases hbr : branch dist arr b idx res idxRes with
        | none => dsimp only; omega
        | some t =>
          dsimp only
          cases t with
          | mk idx2 t2 =>
            cases t2 with
            | mk res2 idxRes2 =>
              dsimp only
              have hadv := branch_cursor_advance dist arr b idx res idxRes idx2 res2 idxRes2 hbr
              have := ih (idx2 + 1) res2 idxRes2 (iters + 1) (tr ++ [b])
              omega
    · rw [if_neg hg]
      dsimp only
      omega

theorem runWith_no_fuelOut (dist : Nat → Nat → Nat) (arr : List Nat) (size : Nat) :
    ∀ (fuel idx : Nat) (res : List Nat) (idxRes iters : Nat) (tr : List Nat),
    size + 1 - idx < fuel →
    (runWith dist arr size fuel idx res idxRes iters tr).result ≠
      Except.error DErr.fuelOut := by
  intro fuel
  induction fuel with
  | zero => intro idx res idxRes iters tr hf; omega
  | succ fuel ih =>
    intro idx res idxRes iters tr hf
    rw [runWith]
    by_cases hg : idx ≤ size ∧ idx ≤ arr.length
    · obtain ⟨hg1, hg2⟩ := hg
      rw [if_pos ⟨hg1, hg2⟩]
      cases hb : arr.get? idx with
      | none => dsimp only; simp
      | some b =>
        dsimp only
        cases hbr : branch dist arr b idx res idxRes with
        | none => dsimp only; simp
        | some t =>
          dsimp only
          cases t with
          | mk idx2 t2 =>
            cases t2 with
            | mk res2 idxRes2 =>
              dsimp only
              have hadv := branch_cursor_advance dist arr b idx res idxRes idx2 res2 idxRes2 hbr
              exact ih (idx2 + 1) res2 idxRes2 (iters + 1) (tr ++ [b]) (by omega)
    · rw [if_neg hg]
      dsimp only
      simp

theorem runWith_preserves_len (dist : Nat → Nat → Nat) (arr : List Nat) (size : Nat) :
    ∀ (fuel idx : Nat) (res : List Nat) (idxRes iters : Nat) (tr : List Nat)
    (out : List Nat),
    idxRes = res.length →
    (runWith dist arr size fuel idx res idxRes iters tr).result = Except.ok out →
    (runWith dist arr size fuel idx res idxRes iters tr).finIdxRes = out.length := by
  intro fuel
  induction fuel with
  | zero =>
    intro idx res idxRes iters tr out hinv hok
    simp [runWith] at hok
  | succ fuel ih =>
    intro idx res idxRes iters tr out hinv hok
    rw [runWith] at hok ⊢
    by_cases hg : idx ≤ size ∧ idx ≤ arr.length
    · obtain ⟨hg1, hg2⟩ := hg
      rw [if_pos ⟨hg1, hg2⟩] at hok ⊢
      cases hb : arr.get? idx with
      | none => rw [hb] at hok; dsimp only at hok; cases hok
      | some b =>
        rw [hb] at hok
        dsimp only at hok ⊢
        cases hbr : branch dist arr b idx res idxRes with
        | none => rw [hbr] at hok; dsimp only at hok; cases hok
        | some t =>
          rw [hbr] at hok
          cases t with
          | mk idx2 t2 =>
            cases t2 with
            | mk res2 idxRes2 =>
              dsimp only at hok ⊢
              have hpre := branch_preserves_len dist arr b idx res idxRes idx2 res2 idxRes2 hinv hbr
              exact ih (idx2 + 1) res2 idxRes2 (iters + 1) (tr ++ [b]) out hpre hok
    · rw [if_neg hg] at hok ⊢
      dsimp only at hok ⊢
      cases hok
      exact hinv

theorem runWith_ops_mem (dist : Nat → Nat → Nat) (arr : List Nat) (size : Nat) :
    ∀ (fuel idx : Nat) (res : List Nat) (idxRes iters : Nat) (tr : List Nat)
    (x : Nat), x ∈ tr →
    x ∈ (runWith dist arr size fuel idx res idxRes iters tr).ops := by
  intro fuel
  induction fuel with
  | zero => intro idx res idxRes iters tr x hx; simpa [runWith] using hx
  | succ fuel ih =>
    intro idx res idxRes iters tr x hx
    rw [runWith]
    by_cases hg : idx ≤ size ∧ idx ≤ arr.length
    · obtain ⟨hg1, hg2⟩ := hg
      rw [if_pos ⟨hg1, hg2⟩]
      cases hb : arr.get? idx with
      | none => dsimp only; exact hx
      | some b =>
        dsimp only
        cases hbr : branch dist arr b idx res idxRes with
        | none => dsimp only; exact List.mem_append_left _ hx
        | some t =>
          dsimp only
          cases t with
          | mk idx2 t2 =>
            cases t2 with
            | mk res2 idxRes2 =>
              dsimp only
              exact ih (idx2 + 1) res2 idxRes2 (iters + 1) (tr ++ [b]) x
                (List.mem_append_left _ hx)
    · rw [if_neg hg]
      exact hx

theorem branch_dist_irrel (d1 d2 : Nat → Nat → Nat) (arr : List Nat)
    (b idx : Nat) (res : List Nat) (idxRes : Nat) (hb : b < 0x80) :
    branch d1 arr b idx res idxRes = branch d2 arr b idx res idxRes := by
  unfold branch
  rw [if_neg (by omega : ¬ 0x80 ≤ b), if_neg (by omega : ¬ 0x80 ≤ b)]

theorem runWith_agree (d1 d2 : Nat → Nat → Nat) (arr : List Nat) (size : Nat) :
    ∀ (fuel idx : Nat) (res : List Nat) (idxRes iters : Nat) (tr : List Nat),
    (∀ b ∈ (runWith d1 arr size fuel idx res idxRes iters tr).ops, b < 0x80) →
    runWith d1 arr size fuel idx res idxRes iters tr =
      runWith d2 arr size fuel idx res idxRes iters tr := by
  intro fuel
  induction fuel with
  | zero => intro idx res idxRes iters tr _; rfl
  | succ fuel ih =>
    intro idx res idxRes iters tr hops
    rw [runWith] at hops ⊢
    conv_rhs => rw [runWith]
    by_cases hg : idx ≤ size ∧ idx ≤ arr.length
    · obtain ⟨hg1, hg2⟩ := hg
      rw [if_pos ⟨hg1, hg2⟩] at hops ⊢
      rw [if_pos ⟨hg1, hg2⟩]
      cases hb : arr.get? idx with
      | none => rfl
      | some b =>
        rw [hb] at hops
        dsimp only at hops ⊢
        have hblt : b < 0x80 := by
          apply hops
          cases hbr : branch d1 arr b idx res idxRes with
          | none =>
            dsimp only
            exact List.mem_append_right _ (List.mem_singleton.mpr rfl)
          | some t =>
            cases t with
            | mk idx2 t2 =>
              cases t2 with
              | mk res2 idxRes2 =>
                dsimp only
                exact runWith_ops_mem d1 arr size fuel (idx2 + 1) res2 idxRes2
                  (iters + 1) (tr ++ [b]) b
                  (List.mem_append_right _ (List.mem_singleton.mpr rfl))
        rw [← branch_dist_irrel d1 d2 arr b idx res idxRes hblt]
        cases hbr : branch d1 arr b idx res idxRes with
        | none => rfl
        | some t =>
          rw [hbr] at hops
          cases t with
          | mk idx2 t2 =>
            cases t2 with
            | mk res2 idxRes2 =>
              dsimp only at hops ⊢
              exact ih (idx2 + 1) res2 idxRes2 (iters + 1) (tr ++ [b]) hops
    · rw [if_neg hg] at hops ⊢
      rw [if_neg hg]

theorem pyGet_head (p : List Nat) (a : Nat) (l : List Nat) :
    pyGet (p ++ a :: l) ((p.length : Nat) : Int) = some a := by
  have := pyGet_app p (a :: l) 0
  simpa using this

theorem copyLoop_rot : ∀ (n : Nat) (p : List Nat) (a : Nat) (l : List Nat),
    copyLoop (p ++ a :: l) ((p.length : Nat) : Int) n =
      some (p ++ (a :: l ++ rotStream a l n)) := by
  intro n
  induction n with
  | zero => intro p a l; simp [copyLoop, rotStream]
  | succ n ih =>
    intro p a l
    rw [copyLoop, pyGet_head]
    dsimp only
    cases l with
    | nil =>
      have h1 : (p ++ a :: ([] : List Nat)) ++ [a] = (p ++ [a]) ++ a :: [] := by simp
      have h2 : ((p.length : Nat) : Int) + 1 = (((p ++ [a]).length : Nat) : Int) := by
        simp
      rw [h1, h2, ih (p ++ [a]) a []]
      simp [rotStream]
    | cons c t =>
      have h1 : (p ++ a :: c :: t) ++ [a] = (p ++ [a]) ++ c :: (t ++ [a]) := by simp
      have h2 : ((p.length : Nat) : Int) + 1 = (((p ++ [a]).length : Nat) : Int) := by
        simp
      rw [h1, h2, ih (p ++ [a]) c (t ++ [a])]
      simp [rotStream]

theorem nat_and_ffff (x : Nat) : x &&& 0xFFFF = x % 65536 := by
  have := Nat.and_pow_two_sub_one_eq_mod x 16
  norm_num at this
  exact this

theorem nat_and_3ff (x : Nat) : x &&& 0x3FF = x % 1024 := by
  have := Nat.and_pow_two_sub_one_eq_mod x 10
  norm_num at this
  exact this

theorem distSplit_eq (b s : Nat) :
    distSplit b s = ((b * 256 + s) % 1024) + 1 := by
  unfold distSplit
  have h1 : b <<< 8 = b * 256 := by rw [Nat.shiftLeft_eq]
  rw [h1, nat_and_ffff, nat_and_3ff]
  omega

theorem distUnpacker_eq (b s : Nat) :
    distUnpacker b s = (((b + s) % 4) * 256) + 1 := by
  unfold distUnpacker
  have h1 : (b + s) <<< 8 = (b + s) * 256 := by rw [Nat.shiftLeft_eq]
  rw [h1, nat_and_ffff, nat_and_3ff]
  omega

/- ### Claim theorems -/

/-- C1 counterexample: at opcode byte `b = 0x80` with operand `s = 0x01` the
claimed formula `((b*256 + s) mod 1024) + 1` gives distance 2, but
`unpack` (src/unpacker.py) computes 257; on a block whose output so far is
the single byte `0x07`, the two decoders then behave differently (`unpack`
raises an IndexError, `unpack_tiles` succeeds), so the claim that both
implementations use the high-byte/low-byte formula is false. -/
theorem c1_counterexample :
    distUnpacker 0x80 0x01 = 257 ∧ ((0x80 * 256 + 0x01) % 1024) + 1 = 2 ∧
    distSplit 0x80 0x01 = 2 ∧
    (unpack [0x00, 0x04, 0x00, 0x07, 0x80, 0x01] 0).result =
      Except.error DErr.indexError ∧
    (unpackTiles [0x00, 0x04, 0x00, 0x07, 0x80, 0x01] 0).result =
      Except.ok [0x07, 0x07, 0x07] :=
  ⟨rfl, rfl, rfl, rfl, rfl⟩

/-- C1 (amended): only `unpack_tiles` (src/scripts/split.py) computes the
back-reference distance as `((b*256 + s) mod 1024) + 1`, a value in
1..1024; `unpack` (src/unpacker.py) shifts after adding and so computes
`(((b + s) mod 4) * 256) + 1`, a value in {1, 257, 513, 769}. -/
theorem c1_distance_formulas (b s : Nat) :
    distSplit b s = ((b * 256 + s) % 1024) + 1 ∧
    distUnpacker b s = (((b + s) % 4) * 256) + 1 ∧
    1 ≤ distSplit b s ∧ distSplit b s ≤ 1024 := by
  refine ⟨distSplit_eq b s, distUnpacker_eq b s, ?_, ?_⟩ <;>
    rw [distSplit_eq b s] <;> omega

/-- C2: the code violates the stated error contract.  On the block
`00 04 00 07 80 01` the output before the back-reference is `[0x07]`
(length 1) and `unpack_tiles` computes distance 2 > 1, which the spec says
must be a fatal decode error; instead Python list indexing at the negative
window index `-1` silently wraps around to position 0 and the decode
succeeds, returning `0x07 0x07 0x07`. -/
theorem c2_silent_wraparound :
    distSplit 0x80 0x01 = 2 ∧
    pyGet [0x07] (-1) = some 0x07 ∧
    (unpackTiles [0x00, 0x04, 0x00, 0x07, 0x80, 0x01] 0).result =
      Except.ok [0x07, 0x07, 0x07] :=
  ⟨rfl, rfl, rfl⟩

/-- C3 counterexample: on the block `00 02` the declared size is 2 and the
input slice length is 2, so per the claim no iteration may begin
(cursor 2 is not `<` the length); the code's guard `idx <= len(arr)`
nevertheless starts an iteration and the opcode read at cursor 2 is out of
bounds, raising an IndexError, in both implementations. -/
theorem c3_counterexample :
    headerSize [0x00, 0x02] 0 = some 2 ∧
    (List.drop 0 [0x00, 0x02]).length = 2 ∧
    (unpack [0x00, 0x02] 0).iters = 1 ∧
    (unpack [0x00, 0x02] 0).result = Except.error DErr.indexError ∧
    (unpackTiles [0x00, 0x02] 0).iters = 1 ∧
    (unpackTiles [0x00, 0x02] 0).result = Except.error DErr.indexError :=
  ⟨rfl, rfl, rfl, rfl, rfl, rfl⟩

/-- C3 (amended): an opcode-dispatch iteration begins exactly when
`cursor <= declared_size` and `cursor <= input length` (not `<`): when the
guard fails the loop exits cleanly with the accumulated output, and when
the guard holds with `cursor = input length` the opcode read at the top of
the iteration is out of bounds and the block fails with an index error. -/
theorem c3_loop_guard (dist : Nat → Nat → Nat) (arr : List Nat)
    (size fuel idx : Nat) (res : List Nat) (idxRes iters : Nat) (tr : List Nat) :
    (¬ (idx ≤ size ∧ idx ≤ arr.length) →
      runWith dist arr size (fuel + 1) idx res idxRes iters tr =
        ⟨Except.ok res, idxRes, iters, tr⟩) ∧
    (idx ≤ size → idx = arr.length →
      runWith dist arr size (fuel + 1) idx res idxRes iters tr =
        ⟨Except.error DErr.indexError, idxRes, iters + 1, tr⟩) := by
  constructor
  · intro hg
    rw [runWith, if_neg hg]
  · intro h1 h2
    rw [runWith, if_pos ⟨h1, le_of_eq h2⟩]
    have hnone : arr.get? idx = none := List.get?_eq_none.mpr (le_of_eq h2.symm)
    rw [hnone]

/-- C3 witness: the amended guard characterization applied to the concrete
block `00 02` at cursor 2 (equal to the slice length). -/
theorem c3_loop_guard_witness :
    runWith distUnpacker [0x00, 0x02] 2 (1 + 1) 2 [] 0 0 [] =
      ⟨Except.error DErr.indexError, 0, 0 + 1, []⟩ :=
  (c3_loop_guard distUnpacker [0x00, 0x02] 2 1 2 [] 0 0 []).2 (by decide) (by decide)

/-- C4 counterexample: the spec vector expects `0x21 0xAA` to decode to the
two bytes `0xAA 0xAA`, but neither implementation produces that output. -/
theorem c4_counterexample :
    (unpack [0x00, 0x03, 0x21, 0xAA] 0).result ≠ Except.ok [0xAA, 0xAA] ∧
    (unpackTiles [0x00, 0x03, 0x21, 0xAA] 0).result ≠ Except.ok [0xAA, 0xAA] := by
  decide

/-- C4 (amended): the single-byte-run opcode `0x21` followed by `0xAA` sets
`cnt = (0x21 AND 0x1F) + 1 = 2` and the loop appends the byte `cnt + 1 = 3`
times, so the stream decodes to the three bytes `0xAA 0xAA 0xAA` in both
implementations. -/
theorem c4_run_0x21 :
    (unpack [0x00, 0x03, 0x21, 0xAA] 0).result = Except.ok [0xAA, 0xAA, 0xAA] ∧
    (unpackTiles [0x00, 0x03, 0x21, 0xAA] 0).result = Except.ok [0xAA, 0xAA, 0xAA] :=
  ⟨rfl, rfl⟩

/-- C5 counterexample: the spec vector expects `0x41 0xBB 0xCC` to decode to
two repetitions of the pair, but neither implementation produces that. -/
theorem c5_counterexample :
    (unpack [0x00, 0x04, 0x41, 0xBB, 0xCC] 0).result ≠
      Except.ok [0xBB, 0xCC, 0xBB, 0xCC] ∧
    (unpackTiles [0x00, 0x04, 0x41, 0xBB, 0xCC] 0).result ≠
      Except.ok [0xBB, 0xCC, 0xBB, 0xCC] := by
  decide

/-- C5 (amended): the two-byte-pattern opcode `0x41` followed by `0xBB 0xCC`
sets `cnt = (0x41 AND 0x1F) + 1 = 2` and the loop appends the pair
`cnt + 1 = 3` times, so the stream decodes to the six bytes
`0xBB 0xCC 0xBB 0xCC 0xBB 0xCC` in both implementations. -/
theorem c5_run_0x41 :
    (unpack [0x00, 0x04, 0x41, 0xBB, 0xCC] 0).result =
      Except.ok [0xBB, 0xCC, 0xBB, 0xCC, 0xBB, 0xCC] ∧
    (unpackTiles [0x00, 0x04, 0x41, 0xBB, 0xCC] 0).result =
      Except.ok [0xBB, 0xCC, 0xBB, 0xCC, 0xBB, 0xCC] :=
  ⟨rfl, rfl⟩

/-- C6: for any decode state whose output ends in `0x01 0x02 0x03`, the
shared back-reference copy loop run with distance 3 (window start
`output.length - 3`) for 6 iterations appends exactly
`0x01 0x02 0x03 0x01 0x02 0x03`, reading bytes it wrote earlier in the same
copy. -/
theorem c6_self_overlap (res p : List Nat) (h : res = p ++ [0x01, 0x02, 0x03]) :
    copyLoop res ((res.length : Int) - 3) 6 =
      some (res ++ [0x01, 0x02, 0x03, 0x01, 0x02, 0x03]) := by
  subst h
  have h2 : (((p ++ [0x01, 0x02, 0x03]).length : Nat) : Int) - 3 =
      ((p.length : Nat) : Int) := by
    simp
  rw [h2, copyLoop_rot 6 p 0x01 [0x02, 0x03]]
  have h3 : rotStream 0x01 [0x02, 0x03] 6 = [0x01, 0x02, 0x03, 0x01, 0x02, 0x03] := rfl
  rw [h3]
  simp

/-- C6 witness: the copy-loop theorem applied at the concrete output
`[0x01, 0x02, 0x03]`. -/
theorem c6_self_overlap_witness :
    copyLoop [0x01, 0x02, 0x03] ((([0x01, 0x02, 0x03] : List Nat).length : Int) - 3) 6 =
      some ([0x01, 0x02, 0x03] ++ [0x01, 0x02, 0x03, 0x01, 0x02, 0x03]) :=
  c6_self_overlap [0x01, 0x02, 0x03] [] rfl

/-- C7: for every block whose two-byte header is readable, both decode loops
terminate (the embedding's fuel, set to `size + 1` by the entry points, is
never exhausted) and the number of opcode-dispatch iterations is at most the
declared size, strictly below it whenever the size is positive. -/
theorem c7_iteration_bound (data : List Nat) (addr size : Nat)
    (h : headerSize data addr = some size) :
    (unpack data addr).iters ≤ size ∧
    (1 ≤ size → (unpack data addr).iters < size) ∧
    (unpack data addr).result ≠ Except.error DErr.fuelOut ∧
    (unpackTiles data addr).iters ≤ size ∧
    (1 ≤ size → (unpackTiles data addr).iters < size) ∧
    (unpackTiles data addr).result ≠ Except.error DErr.fuelOut := by
  unfold unpack unpackTiles
  rw [h]
  dsimp only
  have i1 := runWith_iters_le distUnpacker (data.drop addr) size (size + 1) 2 [] 0 0 []
  have i2 := runWith_iters_le distSplit (data.drop addr) size (size + 1) 2 [] 0 0 []
  have f1 := runWith_no_fuelOut distUnpacker (data.drop addr) size (size + 1) 2 [] 0 0 []
    (by omega)
  have f2 := runWith_no_fuelOut distSplit (data.drop addr) size (size + 1) 2 [] 0 0 []
    (by omega)
  exact ⟨by omega, fun hs => by omega, f1, by omega, fun hs => by omega, f2⟩

/-- C7 witness: the iteration bound at the concrete block `00 03 21 AA`
(declared size 3, one iteration). -/
theorem c7_iteration_bound_witness :
    (unpack [0x00, 0x03, 0x21, 0xAA] 0).iters ≤ 3 ∧
    (1 ≤ 3 → (unpack [0x00, 0x03, 0x21, 0xAA] 0).iters < 3) ∧
    (unpack [0x00, 0x03, 0x21, 0xAA] 0).result ≠ Except.error DErr.fuelOut ∧
    (unpackTiles [0x00, 0x03, 0x21, 0xAA] 0).iters ≤ 3 ∧
    (1 ≤ 3 → (unpackTiles [0x00, 0x03, 0x21, 0xAA] 0).iters < 3) ∧
    (unpackTiles [0x00, 0x03, 0x21, 0xAA] 0).result ≠ Except.error DErr.fuelOut :=
  c7_iteration_bound [0x00, 0x03, 0x21, 0xAA] 0 3 rfl

/-- C8: the invariant `idx_res = length(res)` is preserved: every opcode
branch that appends bytes to the output advances `idx_res` by exactly the
number of appended bytes, and a decode loop started with the invariant ends
with its final `idx_res` equal to the length of the decoded output.  Both
implementations instantiate the `dist` parameter. -/
theorem c8_idxres_invariant :
    (∀ (dist : Nat → Nat → Nat) (arr : List Nat) (b idx : Nat) (res : List Nat)
       (idxRes idx2 : Nat) (res2 : List Nat) (idxRes2 : Nat),
       idxRes = res.length →
       branch dist arr b idx res idxRes = some (idx2, res2, idxRes2) →
       idxRes2 = res2.length) ∧
    (∀ (dist : Nat → Nat → Nat) (arr : List Nat) (size fuel idx : Nat)
       (res : List Nat) (idxRes iters : Nat) (tr out : List Nat),
       idxRes = res.length →
       (runWith dist arr size fuel idx res idxRes iters tr).result = Except.ok out →
       (runWith dist arr size fuel idx res idxRes iters tr).finIdxRes = out.length) := by
  constructor
  · intro dist arr b idx res idxRes idx2 res2 idxRes2 hinv hbr
    exact branch_preserves_len dist arr b idx res idxRes idx2 res2 idxRes2 hinv hbr
  · intro dist arr size fuel idx res idxRes iters tr out hinv hok
    exact runWith_preserves_len dist arr size fuel idx res idxRes iters tr out hinv hok

/-- C8 witness: the loop-level invariant applied to the concrete block
`00 03 21 AA` decoded by the split.py variant. -/
theorem c8_idxres_invariant_witness :
    (runWith distSplit [0x00, 0x03, 0x21, 0xAA] 3 4 2 [] 0 0 []).finIdxRes =
      (List.length [0xAA, 0xAA, 0xAA]) :=
  c8_idxres_invariant.2 distSplit [0x00, 0x03, 0x21, 0xAA] 3 4 2 [] 0 0 []
    [0xAA, 0xAA, 0xAA] rfl rfl

/-- C9: when every opcode byte dispatched while decoding a block is below
0x80 (no back-reference opcodes), `unpack` (src/unpacker.py) and
`unpack_tiles` (src/scripts/split.py) decode the block to the same result:
the two variants differ only inside the back-reference distance
computation. -/
theorem c9_no_backref_equiv (data : List Nat) (addr : Nat)
    (h : ∀ b ∈ (unpack data addr).ops, b < 0x80) :
    (unpack data addr).result = (unpackTiles data addr).result := by
  unfold unpack at h
  unfold unpack unpackTiles
  cases hh : headerSize data addr with
  | none => rfl
  | some size =>
    rw [hh] at h
    dsimp only at h ⊢
    rw [runWith_agree distUnpacker distSplit (data.drop addr) size (size + 1) 2 [] 0 0 [] h]

/-- C9 witness: the block `00 03 21 AA` dispatches only the opcode `0x21`,
which is below 0x80, and both decoders give the same result on it. -/
theorem c9_no_backref_equiv_witness :
    (∀ b ∈ (unpack [0x00, 0x03, 0x21, 0xAA] 0).ops, b < 0x80) ∧
    (unpack [0x00, 0x03, 0x21, 0xAA] 0).result =
      (unpackTiles [0x00, 0x03, 0x21, 0xAA] 0).result :=
  ⟨by decide, c9_no_backref_equiv [0x00, 0x03, 0x21, 0xAA] 0 (by decide)⟩

/-- C10: a block with a readable two-byte header whose big-endian declared
size is 0 or 1 decodes, in both implementations, to the empty byte sequence
with zero opcode-dispatch iterations and no error: the initial cursor 2
already fails the guard `cursor <= declared_size`. -/
theorem c10_small_declared_size (data : List Nat) (addr size : Nat)
    (h : headerSize data addr = some size) (hs : size ≤ 1) :
    (unpack data addr).result = Except.ok [] ∧ (unpack data addr).iters = 0 ∧
    (unpackTiles data addr).result = Except.ok [] ∧
    (unpackTiles data addr).iters = 0 := by
  unfold unpack unpackTiles
  rw [h]
  dsimp only
  have hg : ¬ (2 ≤ size ∧ 2 ≤ (data.drop addr).length) := fun hc => by omega
  rw [show size + 1 = Nat.succ size from rfl, runWith, runWith, if_neg hg, if_neg hg]
  exact ⟨rfl, rfl, rfl, rfl⟩

/-- C10 witness: the two-byte block `00 01` (declared size 1) decodes to the
empty output with zero iterations in both implementations. -/
theorem c10_small_declared_size_witness :
    (unpack [0x00, 0x01] 0).result = Except.ok [] ∧
    (unpack [0x00, 0x01] 0).iters = 0 ∧
    (unpackTiles [0x00, 0x01] 0).result = Except.ok [] ∧
    (unpackTiles [0x00, 0x01] 0).iters = 0 :=
  c10_small_declared_size [0x00, 0x01] 0 1 rfl (by decide)
